import Mathlib

/-!
Verification of the video-analysis ingestion pipeline
(`services/video_analysis/main.py` and `services/video_analysis/tasks.py`).

The embedding is shallow:

* Bytes are `Nat`; a byte block is `List Nat`.
* The subprocess's decoded audio output is modelled as the list of non-empty
  chunks returned by successive `process.stdout.read(1024)` calls before
  end-of-stream (each chunk has length at most `1024`); the `if not chunk:
  break` branch corresponds to the end of that list.
* The read/accumulate/cut loop of `process_video_stream` is embedded twice,
  at two levels of detail that are proved consistent:
  - `process_video_stream` is the buffer-and-segments fold (lines 133-143),
    returning the final rolling buffer and the emitted segments;
  - `capture_loop` is the full loop body as an event trace, recording each
    `read`, each Celery `submit` (`process_audio_chunk.delay(current_buffer)`),
    the in-loop `wait` for `celery_result.get` (timeout 10, run through
    `asyncio.to_thread`), each `insights_queue.put` (`push`), and the
    trailing `asyncio.sleep(0.1)` (`sleep`).
* The Celery broker is an oracle `Nat → WorkerOutcome` giving, for the k-th
  submitted segment, either the worker's insight list or a raised
  timeout/broker error (caught by the `except` block of the loop).
* The worker (`tasks.process_audio_chunk`) and its sub-steps are embedded
  with their fallibility made explicit: an external collaborator call that
  may raise becomes an `Except Unit` value, and the `try/except` blocks of
  the source become `match`es on it.
* `insights_queue` (a single global `asyncio.Queue`) is a FIFO `List`;
  a WebSocket subscriber's `insights_queue.get()` removes the head, so the
  queue is a competing-consumer structure, which is what the fan-out
  theorems are about.
-/

namespace VideoAnalysis

/-- THRESHOLD constant of `process_video_stream` (line 131): bytes
accumulated before a segment is cut. -/
def THRESHOLD : Nat := 100000

/-- Size bound of each `process.stdout.read(1024)` call in the capture
loop: a returned chunk has at most this many bytes. -/
def READ_SIZE : Nat := 1024

/-! ## Segmenter: buffer-and-segments view of `process_video_stream` -/

/-- One iteration of the accumulate/cut loop of `process_video_stream`
(lines 134-143) on the state `(audio_buffer, segments emitted so far)`:
the chunk is appended to the buffer (`audio_buffer.extend(chunk)`); when
`len(audio_buffer) >= THRESHOLD` the whole buffer is snapshot
(`current_buffer = bytes(audio_buffer)`), the buffer is cleared, and the
snapshot becomes the next emitted segment. -/
def segment_step (threshold : Nat) (st : List Nat × List (List Nat))
    (chunk : List Nat) : List Nat × List (List Nat) :=
  let buf := st.1 ++ chunk
  if threshold ≤ buf.length then ([], st.2 ++ [buf]) else (buf, st.2)

/-- The read/accumulate loop of `process_video_stream` (lines 133-143)
viewed as a fold over the chunks read from the subprocess, starting from
an empty `audio_buffer` and no emitted segments.  Returns the final
rolling buffer and the list of emitted segments in emission order.  The
threshold is a parameter; the source fixes it to `THRESHOLD = 100000`. -/
def process_video_stream (threshold : Nat) (chunks : List (List Nat)) :
    List Nat × List (List Nat) :=
  chunks.foldl (segment_step threshold) ([], [])

/-- Length-level mirror of `segment_step`: tracks only the buffer length
and the emitted segment lengths. -/
def seg_len_step (threshold : Nat) (st : Nat × List Nat) (clen : Nat) :
    Nat × List Nat :=
  let b := st.1 + clen
  if threshold ≤ b then (0, st.2 ++ [b]) else (b, st.2)

/-- Length-level mirror of `process_video_stream`. -/
def segment_lengths (threshold : Nat) (clens : List Nat) : Nat × List Nat :=
  clens.foldl (seg_len_step threshold) (0, [])

/-! ## Segment Worker: `tasks.py` -/

/-- Insight record as built by `extract_insights_sync` in `tasks.py`
(lines 50-56): `{timestamp, speaker, action, keywords, sentiment}`.
The float `time.time()` timestamp is abstracted to a `Nat` parameter. -/
structure Insight where
  timestamp : Nat
  speaker : String
  action : String
  keywords : List String
  sentiment : String
deriving DecidableEq, Repr

/-- Body of `tasks.transcribe_audio_sync`: `model.transcribe` may raise
(`Except.error`) or return a dict whose `"text"` key may be absent
(`result.get("text", "")`); the `except` block logs and returns `""`. -/
def transcribe_audio_sync (raw : Except Unit (Option String)) : String :=
  match raw with
  | Except.ok d => d.getD ""
  | Except.error _ => ""

/-- Placeholder dict returned by `tasks.diarization_processing` (a
speaker-id to label association list). -/
def diarization_processing : List (String × String) :=
  [("speaker_1", "Speaker 1"), ("speaker_2", "Speaker 2")]

/-- Body of `tasks.perform_diarization_sync`: the diarization collaborator
may raise; the `except` block logs and returns the empty dict. -/
def perform_diarization_sync (raw : Except Unit (List (String × String))) :
    List (String × String) :=
  match raw with
  | Except.ok d => d
  | Except.error _ => []

/-- Body of `tasks.extract_insights_sync` (lines 44-56): one fixed Insight
per call, whose speaker is `diarization.get("speaker_1", "Unknown")`.
The transcription argument is accepted and ignored, as in the source. -/
def extract_insights_sync (now : Nat) (transcription : String)
    (diarization : List (String × String)) : List Insight :=
  [{ timestamp := now,
     speaker := (diarization.lookup "speaker_1").getD "Unknown",
     action := "Follow up on discussion",
     keywords := ["follow", "discussion"],
     sentiment := "positive" }]

/-- Body of the Celery task `tasks.process_audio_chunk` (lines 58-79):
runs the three sub-steps in order inside an outer `try` whose `except`
returns `[]`.  `traw` and `draw` are the raisable collaborator calls
inside `transcribe_audio_sync` and `perform_diarization_sync` (both catch
internally, so they cannot propagate); `extract_ok` is false when the
extraction sub-step raises, which the outer `except` catches. -/
def process_audio_chunk (now : Nat) (traw : Except Unit (Option String))
    (draw : Except Unit (List (String × String))) (extract_ok : Bool) :
    List Insight :=
  let transcription := transcribe_audio_sync traw
  let diarization := perform_diarization_sync draw
  if extract_ok then extract_insights_sync now transcription diarization
  else []

/-! ## Capture loop with collection: event-trace view -/

/-- Outcome of `celery_result.get(10)` for one submitted segment: either
the worker's insight list, or a raised timeout/broker error. -/
inductive WorkerOutcome where
  | success (insights : List Insight)
  | failure
deriving DecidableEq

/-- Observable events of one iteration of the `process_video_stream`
loop: a subprocess read, a Celery submission (tagged with its position
`k` in submission order and carrying the exact submitted payload, the raw
buffer bytes), the in-loop await of that submission's result, a
`insights_queue.put` of one insight from segment `k`, and the trailing
`asyncio.sleep(0.1)`. -/
inductive CaptureEvent where
  | read (chunk : List Nat)
  | submit (k : Nat) (payload : List Nat)
  | wait (k : Nat)
  | push (k : Nat) (i : Insight)
  | sleep
deriving DecidableEq

/-- Events produced by the `try` block after the wait on segment `k`
returns: on success every insight of the result is put on
`insights_queue` in order; on a raised timeout/broker error the `except`
block only logs, producing no push. -/
def collect_events (k : Nat) : WorkerOutcome → List CaptureEvent
  | WorkerOutcome.success l => l.map (CaptureEvent.push k)
  | WorkerOutcome.failure => []

/-- The full loop body of `process_video_stream` (lines 133-157) as an
event trace.  `outcome j` is what `celery_result.get(10)` yields for the
j-th submission.  State: the remaining chunks, the rolling buffer, and
the number of submissions made so far.  Per iteration: read a chunk (an
empty read breaks the loop - the end of the chunk list); extend the
buffer; if the threshold is reached, snapshot and clear the buffer,
submit the snapshot, await its result in the loop (the `await
asyncio.to_thread(celery_result.get, 10)` on line 150), push its
insights on success; finally sleep. -/
def capture_loop (threshold : Nat) (outcome : Nat → WorkerOutcome) :
    List (List Nat) → List Nat → Nat → List CaptureEvent
  | [], _, _ => []
  | chunk :: rest, buf, k =>
    let buf2 := buf ++ chunk
    if threshold ≤ buf2.length then
      CaptureEvent.read chunk :: CaptureEvent.submit k buf2 ::
        CaptureEvent.wait k ::
        (collect_events k (outcome k) ++
          CaptureEvent.sleep :: capture_loop threshold outcome rest [] (k + 1))
    else
      CaptureEvent.read chunk :: CaptureEvent.sleep ::
        capture_loop threshold outcome rest buf2 k

/-- Chunks read from the subprocess, in order, as recorded in a trace. -/
def reads_of (tr : List CaptureEvent) : List (List Nat) :=
  tr.filterMap fun e =>
    match e with
    | CaptureEvent.read c => some c
    | _ => none

/-- Payloads of the Celery submissions of a trace, in submission order.
Each payload is exactly the argument of `process_audio_chunk.delay`:
the raw snapshot bytes, nothing else. -/
def submit_payloads (tr : List CaptureEvent) : List (List Nat) :=
  tr.filterMap fun e =>
    match e with
    | CaptureEvent.submit _ p => some p
    | _ => none

/-- Submission-order positions of the Celery submissions of a trace. -/
def submit_indices (tr : List CaptureEvent) : List Nat :=
  tr.filterMap fun e =>
    match e with
    | CaptureEvent.submit k _ => some k
    | _ => none

/-- Insights put on `insights_queue` by a trace, in queue-insertion
order. -/
def delivered (tr : List CaptureEvent) : List Insight :=
  tr.filterMap fun e =>
    match e with
    | CaptureEvent.push _ i => some i
    | _ => none

/-- Segment index of a push event, if any. -/
def push_tag (e : CaptureEvent) : Option Nat :=
  match e with
  | CaptureEvent.push k _ => some k
  | _ => none

/-- Insight list a worker outcome contributes to the delivery queue. -/
def outcome_insights : WorkerOutcome → List Insight
  | WorkerOutcome.success l => l
  | WorkerOutcome.failure => []

/-! ## HTTP endpoint `analyze_video` -/

/-- Request body of `POST /analyze-video/` (class VideoAnalysisRequest). -/
structure VideoAnalysisRequest where
  meeting_id : String
  video_url : String
  language : String
deriving DecidableEq

/-- A task registered on FastAPI's `BackgroundTasks`: the only one the
endpoint registers is `process_video_stream` applied to a stream URL. -/
inductive BackgroundTask where
  | processVideoStream (stream_url : String)
deriving DecidableEq

/-- Response dict of `analyze_video`: `{"status": ..., "video_url": ...}`. -/
structure AnalyzeVideoResponse where
  status : String
  video_url : String
deriving DecidableEq

/-- Body of the `analyze_video` endpoint (lines 164-168): registers
`process_video_stream(request.video_url)` on the given `BackgroundTasks`
(run by FastAPI only after the response is sent) and returns the
response dict.  The result pairs the returned dict with the background
task list after `add_task`. -/
def analyze_video (request : VideoAnalysisRequest)
    (background_tasks : List BackgroundTask) :
    AnalyzeVideoResponse × List BackgroundTask :=
  ({ status := "started", video_url := request.video_url },
   background_tasks ++ [BackgroundTask.processVideoStream request.video_url])

/-! ## Subscriber fan-out: `insights_queue` and `websocket_insights` -/

/-- State of the delivery side: the global `insights_queue` contents in
FIFO order, and, per attached WebSocket subscriber, the insights already
sent to it by its `websocket_insights` loop. -/
structure FanoutState where
  queue : List Insight
  received : List (List Insight)
deriving DecidableEq

/-- The Collector side: `insights_queue.put(insight)` appends at the
tail (FIFO). -/
def queue_put (s : FanoutState) (i : Insight) : FanoutState :=
  { s with queue := s.queue ++ [i] }

/-- One turn of subscriber `j`'s `websocket_insights` loop:
`insights_queue.get()` removes the head of the queue (an
`asyncio.Queue` hands each item to exactly one getter) and the insight
is sent to that subscriber; on an empty queue `get()` just blocks, so
the state is unchanged. -/
def subscriber_get (s : FanoutState) (j : Nat) : FanoutState :=
  match s.queue with
  | [] => s
  | i :: rest =>
    { queue := rest, received := s.received.set j (s.received.getD j [] ++ [i]) }

/-- Run a schedule of subscriber turns (each entry names the subscriber
whose `get` fires next). -/
def run_schedule (s : FanoutState) (sched : List Nat) : FanoutState :=
  sched.foldl subscriber_get s

/-- Number of copies of insight `i` still queued or already received by
anyone: the conserved quantity of the fan-out. -/
def insight_count (s : FanoutState) (i : Insight) : Nat :=
  s.queue.count i + (s.received.map (fun r => r.count i)).sum

/-! ## Segmenter lemmas -/

/-- Unfolding of `segment_step` on an explicit state pair. -/
theorem segment_step_eq (threshold : Nat) (buf : List Nat)
    (segs : List (List Nat)) (c : List Nat) :
    segment_step threshold (buf, segs) c =
      if threshold ≤ (buf ++ c).length then ([], segs ++ [buf ++ c])
      else (buf ++ c, segs) := rfl

/-- Unfolding of `seg_len_step` on an explicit state pair. -/
theorem seg_len_step_eq (threshold b : Nat) (lens : List Nat) (c : Nat) :
    seg_len_step threshold (b, lens) c =
      if threshold ≤ b + c then (0, lens ++ [b + c]) else (b + c, lens) := rfl

/-- The segmenter fold neither drops, duplicates nor reorders bytes: from
any starting state, the bytes of the emitted segments followed by the
final buffer are the already-emitted bytes, the starting buffer and the
input chunks, in order. -/
theorem segment_foldl_flatten (threshold : Nat) (chunks : List (List Nat))
    (buf : List Nat) (segs : List (List Nat)) :
    (chunks.foldl (segment_step threshold) (buf, segs)).2.flatten ++
      (chunks.foldl (segment_step threshold) (buf, segs)).1 =
      segs.flatten ++ buf ++ chunks.flatten := by
  induction chunks generalizing buf segs with
  | nil => simp
  | cons c rest ih =>
    rw [List.foldl_cons, segment_step_eq]
    by_cases h : threshold ≤ (buf ++ c).length
    · rw [if_pos h, ih]
      simp
    · rw [if_neg h, ih]
      simp

/-- Every segment the fold emits (beyond those already in the
accumulator) has length at least the threshold. -/
theorem segment_foldl_min_length (threshold : Nat) (chunks : List (List Nat))
    (buf : List Nat) (segs : List (List Nat))
    (hsegs : ∀ s ∈ segs, threshold ≤ s.length) :
    ∀ s ∈ (chunks.foldl (segment_step threshold) (buf, segs)).2,
      threshold ≤ s.length := by
  induction chunks generalizing buf segs with
  | nil => exact hsegs
  | cons c rest ih =>
    rw [List.foldl_cons, segment_step_eq]
    by_cases h : threshold ≤ (buf ++ c).length
    · rw [if_pos h]
      refine ih [] (segs ++ [buf ++ c]) ?_
      intro s hs
      rcases List.mem_append.1 hs with hs | hs
      · exact hsegs s hs
      · rw [List.mem_singleton.1 hs]
        exact h
    · rw [if_neg h]
      exact ih (buf ++ c) segs hsegs

/-- Every segment the fold emits has length less than `threshold + cap`,
provided the starting buffer is below the threshold and every chunk is
at most `cap` bytes: the cut happens right after one append, so a
segment can overshoot the threshold by at most one chunk. -/
theorem segment_foldl_max_length (threshold cap : Nat)
    (chunks : List (List Nat)) (buf : List Nat) (segs : List (List Nat))
    (hbuf : buf.length < threshold)
    (hchunks : ∀ c ∈ chunks, c.length ≤ cap)
    (hsegs : ∀ s ∈ segs, s.length < threshold + cap) :
    ∀ s ∈ (chunks.foldl (segment_step threshold) (buf, segs)).2,
      s.length < threshold + cap := by
  induction chunks generalizing buf segs with
  | nil => exact hsegs
  | cons c rest ih =>
    have hc : c.length ≤ cap := hchunks c (List.mem_cons_self c rest)
    have hrest : ∀ c' ∈ rest, c'.length ≤ cap :=
      fun c' hc' => hchunks c' (List.mem_cons_of_mem c hc')
    rw [List.foldl_cons, segment_step_eq]
    by_cases h : threshold ≤ (buf ++ c).length
    · rw [if_pos h]
      refine ih [] (segs ++ [buf ++ c]) (by simpa using Nat.lt_of_le_of_lt (Nat.zero_le _) hbuf) hrest ?_
      intro s hs
      rcases List.mem_append.1 hs with hs | hs
      · exact hsegs s hs
      · rw [List.mem_singleton.1 hs, List.length_append]
        omega
    · rw [if_neg h]
      exact ih (buf ++ c) segs (Nat.lt_of_not_le h) hrest hsegs

/-- The emitted segment lengths and final buffer length depend only on
the chunk lengths: the byte-level fold projects onto the length-level
fold. -/
theorem segment_foldl_lengths (threshold : Nat) (chunks : List (List Nat))
    (buf : List Nat) (segs : List (List Nat)) :
    ((chunks.foldl (segment_step threshold) (buf, segs)).1.length,
     (chunks.foldl (segment_step threshold) (buf, segs)).2.map List.length) =
      (chunks.map List.length).foldl (seg_len_step threshold)
        (buf.length, segs.map List.length) := by
  induction chunks generalizing buf segs with
  | nil => rfl
  | cons c rest ih =>
    rw [List.foldl_cons, segment_step_eq, List.map_cons, List.foldl_cons,
      seg_len_step_eq]
    by_cases h : threshold ≤ (buf ++ c).length
    · rw [if_pos h, if_pos (by simpa using h), ih]
      simp
    · rw [if_neg h, if_neg (by simpa using h), ih]
      simp

/-- Segments already emitted are a left factor of the fold's output:
the accumulator only grows at the tail. -/
theorem segment_foldl_acc (threshold : Nat) (chunks : List (List Nat)) :
    ∀ (buf : List Nat) (segs : List (List Nat)),
      (chunks.foldl (segment_step threshold) (buf, segs)).2 =
        segs ++ (chunks.foldl (segment_step threshold) (buf, [])).2 := by
  induction chunks with
  | nil => intro buf segs; simp
  | cons c rest ih =>
    intro buf segs
    rw [List.foldl_cons, List.foldl_cons, segment_step_eq, segment_step_eq]
    by_cases h : threshold ≤ (buf ++ c).length
    · rw [if_pos h, if_pos h, ih [] (segs ++ [buf ++ c]),
        ih [] ([] ++ [buf ++ c])]
      simp
    · rw [if_neg h, if_neg h, ih (buf ++ c) segs]

/-- Chunk list delivered by 1024-byte reads over a 150000-zero-byte
stream: 146 full reads of 1024 bytes and one final read of 496 bytes. -/
def zero_stream_chunks : List (List Nat) :=
  List.replicate 146 (List.replicate 1024 0) ++ [List.replicate 496 0]

/-- As long as the accumulated length stays below the threshold, the
length-level fold only adds up chunk lengths and emits nothing. -/
theorem seg_len_fold_no_emit (threshold : Nat) (cs : List Nat) :
    ∀ (b : Nat) (lens : List Nat), b + cs.sum < threshold →
      cs.foldl (seg_len_step threshold) (b, lens) = (b + cs.sum, lens) := by
  induction cs with
  | nil => intro b lens _; simp
  | cons c rest ih =>
    intro b lens h
    rw [List.sum_cons] at h
    rw [List.foldl_cons, seg_len_step_eq, if_neg (by omega),
      ih (b + c) lens (by omega)]
    rw [List.sum_cons]
    exact congrArg (fun n => (n, lens)) (by omega)

/-- Segmenter outcome on the 150000-zero-byte scenario at threshold
100000: one segment of 100352 bytes (the buffer first reaches the
threshold after the 98th 1024-byte read) and 49648 bytes left in the
rolling buffer. -/
theorem zero_stream_segments :
    (process_video_stream 100000 zero_stream_chunks).2.map List.length =
      [100352] ∧
    (process_video_stream 100000 zero_stream_chunks).1.length = 49648 := by
  have hmap : zero_stream_chunks.map List.length =
      List.replicate 146 1024 ++ [496] := by
    rw [zero_stream_chunks, List.map_append, List.map_replicate,
      List.length_replicate, List.map_cons, List.map_nil, List.length_replicate]
  have hsplit : List.replicate 146 (1024 : Nat) =
      List.replicate 97 1024 ++ (1024 :: List.replicate 48 1024) := by
    rw [← List.replicate_succ]
    rw [← List.replicate_add]
  have hsum97 : (List.replicate 97 (1024 : Nat)).sum = 99328 := by
    simp [List.sum_replicate]
  have hsum48 : (List.replicate 48 (1024 : Nat)).sum = 49152 := by
    simp [List.sum_replicate]
  have h := segment_foldl_lengths 100000 zero_stream_chunks [] []
  rw [hmap, hsplit] at h
  simp only [List.length_nil, List.map_nil] at h
  rw [List.append_assoc, List.foldl_append] at h
  rw [seg_len_fold_no_emit 100000 (List.replicate 97 1024) 0 []
    (by rw [hsum97]; omega)] at h
  rw [hsum97] at h
  rw [List.cons_append, List.foldl_cons, seg_len_step_eq, if_pos (by omega)] at h
  norm_num at h
  rw [seg_len_fold_no_emit 100000 (List.replicate 48 1024) 0 [100352]
    (by rw [hsum48]; omega)] at h
  rw [hsum48] at h
  rw [seg_len_step_eq, if_neg (by omega)] at h
  rw [Prod.mk.injEq] at h
  refine ⟨h.2, ?_⟩
  show (List.foldl (segment_step 100000) ([], []) zero_stream_chunks).1.length = 49648
  rw [h.1]

/-- C1 (counterexample): on the spec's own scenario - a 150000-zero-byte
stream at threshold 100000, delivered by the loop's 1024-byte reads -
the Segmenter emits one segment of 100352 bytes with 49648 bytes left
in the rolling buffer, not one segment of exactly 100000 bytes with
50000 bytes left: the cut happens only after a whole read is appended,
so the claim that every emitted segment is exactly threshold-sized is
false on the code. -/
theorem segmenter_emits_oversized_segment :
    (process_video_stream 100000 zero_stream_chunks).2.map List.length =
      [100352] ∧
    (process_video_stream 100000 zero_stream_chunks).1.length = 49648 ∧
    ¬ ((process_video_stream 100000 zero_stream_chunks).2.map List.length =
        [100000] ∧
       (process_video_stream 100000 zero_stream_chunks).1.length = 50000) := by
  refine ⟨zero_stream_segments.1, zero_stream_segments.2, ?_⟩
  intro hcon
  have h1 := hcon.1
  rw [zero_stream_segments.1] at h1
  exact absurd h1 (by decide)

/-- C1 (amended): for every threshold and input chunk stream, the bytes
of the emitted segments followed by the rolling buffer are exactly the
input bytes in order (so the concatenated segments are a prefix of the
stream, no byte duplicated or skipped), and every emitted segment has at
least threshold bytes - but not exactly threshold bytes: on the
150000-zero-byte scenario at threshold 100000 the code emits exactly
one segment, of 100352 bytes, leaving 49648 bytes in the buffer. -/
theorem segmenter_partition_and_min_length (threshold : Nat)
    (chunks : List (List Nat)) :
    ((process_video_stream threshold chunks).2.flatten ++
        (process_video_stream threshold chunks).1 = chunks.flatten ∧
      ∀ s ∈ (process_video_stream threshold chunks).2, threshold ≤ s.length) ∧
    ((process_video_stream 100000 zero_stream_chunks).2.map List.length =
        [100352] ∧
      (process_video_stream 100000 zero_stream_chunks).1.length = 49648) := by
  refine ⟨⟨?_, ?_⟩, zero_stream_segments⟩
  · have h := segment_foldl_flatten threshold chunks [] []
    simpa [process_video_stream] using h
  · exact segment_foldl_min_length threshold chunks [] [] (by simp)

/-- C9: at the source's threshold of 100000 bytes, every segment the
Segmenter emits has between 100000 and 100000 + 1023 bytes, because the
threshold test runs only after appending one read of at most 1024
bytes: a segment overshoots the threshold by at most one read minus one
byte. -/
theorem segment_length_bounds (chunks : List (List Nat))
    (hchunks : ∀ c ∈ chunks, c.length ≤ READ_SIZE) :
    ∀ s ∈ (process_video_stream THRESHOLD chunks).2,
      THRESHOLD ≤ s.length ∧ s.length ≤ THRESHOLD + 1023 := by
  intro s hs
  have hmin := segment_foldl_min_length THRESHOLD chunks [] [] (by simp) s hs
  have hmax := segment_foldl_max_length THRESHOLD READ_SIZE chunks [] []
    (by decide) hchunks (by simp) s hs
  have hconst : THRESHOLD + 1023 + 1 = THRESHOLD + READ_SIZE := by decide
  exact ⟨hmin, by omega⟩

/-- Witness for `segment_length_bounds`: 98 full 1024-byte reads satisfy
the read-size bound, and the resulting single 100352-byte segment obeys
both bounds. -/
theorem segment_length_bounds_witness :
    (∀ c ∈ List.replicate 98 (List.replicate 1024 (0 : Nat)),
      c.length ≤ READ_SIZE) ∧
    (∀ s ∈ (process_video_stream THRESHOLD
        (List.replicate 98 (List.replicate 1024 (0 : Nat)))).2,
      THRESHOLD ≤ s.length ∧ s.length ≤ THRESHOLD + 1023) := by
  have hc : ∀ c ∈ List.replicate 98 (List.replicate 1024 (0 : Nat)),
      c.length ≤ READ_SIZE := by
    intro c hcm
    rw [List.eq_of_mem_replicate hcm, List.length_replicate]
    decide
  exact ⟨hc, segment_length_bounds _ hc⟩

/-! ## Worker and endpoint theorems -/

/-- C4: `process_audio_chunk` absorbs every sub-step failure and always
returns a list instead of propagating an exception: for every
combination of sub-step outcomes the result is the extraction output or
the empty list; when transcription raises, the transcript is
substituted by the empty string and diarization and insight extraction
still execute against it; when extraction raises, the outer handler
returns the empty list. -/
theorem process_audio_chunk_absorbs_failures (now : Nat)
    (draw : Except Unit (List (String × String))) (extract_ok : Bool) :
    (∀ traw, process_audio_chunk now traw draw extract_ok =
      if extract_ok then
        extract_insights_sync now (transcribe_audio_sync traw)
          (perform_diarization_sync draw)
      else []) ∧
    process_audio_chunk now (Except.error ()) draw extract_ok =
      (if extract_ok then
        extract_insights_sync now "" (perform_diarization_sync draw)
      else []) ∧
    (∀ traw, process_audio_chunk now traw draw false = []) := by
  refine ⟨fun _ => rfl, rfl, fun _ => rfl⟩

/-- C10: `extract_insights_sync` returns exactly one Insight for every
transcript and diarization - action "Follow up on discussion", keywords
["follow", "discussion"], sentiment "positive", speaker the
"speaker_1" entry of the diarization or "Unknown" when absent - so any
segment the worker processes without an outer error yields exactly one
insight, regardless of audio content. -/
theorem extract_insights_sync_single (now : Nat) (transcription : String)
    (diarization : List (String × String)) :
    extract_insights_sync now transcription diarization =
      [{ timestamp := now,
         speaker := (diarization.lookup "speaker_1").getD "Unknown",
         action := "Follow up on discussion",
         keywords := ["follow", "discussion"],
         sentiment := "positive" }] ∧
    (extract_insights_sync now transcription diarization).length = 1 ∧
    (∀ traw draw, (process_audio_chunk now traw draw true).length = 1) := by
  exact ⟨rfl, rfl, fun _ _ => rfl⟩

/-- C8: the `analyze_video` endpoint answers
`{"status": "started", "video_url": request.video_url}` and registers
`process_video_stream(request.video_url)` on the FastAPI background
task list (run only after the response), instead of running the
pipeline before responding. -/
theorem analyze_video_fire_and_forget (request : VideoAnalysisRequest)
    (background_tasks : List BackgroundTask) :
    (analyze_video request background_tasks).1 =
      { status := "started", video_url := request.video_url } ∧
    (analyze_video request background_tasks).2 =
      background_tasks ++
        [BackgroundTask.processVideoStream request.video_url] := by
  exact ⟨rfl, rfl⟩

/-! ## Trace lemmas for the capture loop -/

/-- Unfolding of `capture_loop` on a non-empty chunk list. -/
theorem capture_loop_cons (threshold : Nat) (outcome : Nat → WorkerOutcome)
    (c : List Nat) (rest : List (List Nat)) (buf : List Nat) (k : Nat) :
    capture_loop threshold outcome (c :: rest) buf k =
      if threshold ≤ (buf ++ c).length then
        CaptureEvent.read c :: CaptureEvent.submit k (buf ++ c) ::
          CaptureEvent.wait k ::
          (collect_events k (outcome k) ++ CaptureEvent.sleep ::
            capture_loop threshold outcome rest [] (k + 1))
      else
        CaptureEvent.read c :: CaptureEvent.sleep ::
          capture_loop threshold outcome rest (buf ++ c) k := rfl

theorem reads_of_nil : reads_of [] = [] := rfl

theorem reads_of_read (c : List Nat) (tr : List CaptureEvent) :
    reads_of (CaptureEvent.read c :: tr) = c :: reads_of tr := rfl

theorem reads_of_submit (k : Nat) (p : List Nat) (tr : List CaptureEvent) :
    reads_of (CaptureEvent.submit k p :: tr) = reads_of tr := rfl

theorem reads_of_wait (k : Nat) (tr : List CaptureEvent) :
    reads_of (CaptureEvent.wait k :: tr) = reads_of tr := rfl

theorem reads_of_push (k : Nat) (i : Insight) (tr : List CaptureEvent) :
    reads_of (CaptureEvent.push k i :: tr) = reads_of tr := rfl

theorem reads_of_sleep (tr : List CaptureEvent) :
    reads_of (CaptureEvent.sleep :: tr) = reads_of tr := rfl

/-- The collection phase produces no read events. -/
theorem reads_of_collect_append (k : Nat) (w : WorkerOutcome)
    (tr : List CaptureEvent) :
    reads_of (collect_events k w ++ tr) = reads_of tr := by
  cases w with
  | success l =>
    induction l with
    | nil => rfl
    | cons i rest ih =>
      simpa [collect_events, reads_of_push] using ih
  | failure => rfl

theorem submit_payloads_nil : submit_payloads [] = [] := rfl

theorem submit_payloads_read (c : List Nat) (tr : List CaptureEvent) :
    submit_payloads (CaptureEvent.read c :: tr) = submit_payloads tr := rfl

theorem submit_payloads_submit (k : Nat) (p : List Nat)
    (tr : List CaptureEvent) :
    submit_payloads (CaptureEvent.submit k p :: tr) =
      p :: submit_payloads tr := rfl

theorem submit_payloads_wait (k : Nat) (tr : List CaptureEvent) :
    submit_payloads (CaptureEvent.wait k :: tr) = submit_payloads tr := rfl

theorem submit_payloads_push (k : Nat) (i : Insight)
    (tr : List CaptureEvent) :
    submit_payloads (CaptureEvent.push k i :: tr) = submit_payloads tr := rfl

theorem submit_payloads_sleep (tr : List CaptureEvent) :
    submit_payloads (CaptureEvent.sleep :: tr) = submit_payloads tr := rfl

/-- The collection phase produces no submit events. -/
theorem submit_payloads_collect_append (k : Nat) (w : WorkerOutcome)
    (tr : List CaptureEvent) :
    submit_payloads (collect_events k w ++ tr) = submit_payloads tr := by
  cases w with
  | success l =>
    induction l with
    | nil => rfl
    | cons i rest ih =>
      simpa [collect_events, submit_payloads_push] using ih
  | failure => rfl

theorem submit_indices_nil : submit_indices [] = [] := rfl

theorem submit_indices_read (c : List Nat) (tr : List CaptureEvent) :
    submit_indices (CaptureEvent.read c :: tr) = submit_indices tr := rfl

theorem submit_indices_submit (k : Nat) (p : List Nat)
    (tr : List CaptureEvent) :
    submit_indices (CaptureEvent.submit k p :: tr) =
      k :: submit_indices tr := rfl

theorem submit_indices_wait (k : Nat) (tr : List CaptureEvent) :
    submit_indices (CaptureEvent.wait k :: tr) = submit_indices tr := rfl

theorem submit_indices_push (k : Nat) (i : Insight)
    (tr : List CaptureEvent) :
    submit_indices (CaptureEvent.push k i :: tr) = submit_indices tr := rfl

theorem submit_indices_sleep (tr : List CaptureEvent) :
    submit_indices (CaptureEvent.sleep :: tr) = submit_indices tr := rfl

/-- The collection phase produces no submit events. -/
theorem submit_indices_collect_append (k : Nat) (w : WorkerOutcome)
    (tr : List CaptureEvent) :
    submit_indices (collect_events k w ++ tr) = submit_indices tr := by
  cases w with
  | success l =>
    induction l with
    | nil => rfl
    | cons i rest ih =>
      simpa [collect_events, submit_indices_push] using ih
  | failure => rfl

theorem delivered_nil : delivered [] = [] := rfl

theorem delivered_read (c : List Nat) (tr : List CaptureEvent) :
    delivered (CaptureEvent.read c :: tr) = delivered tr := rfl

theorem delivered_submit (k : Nat) (p : List Nat) (tr : List CaptureEvent) :
    delivered (CaptureEvent.submit k p :: tr) = delivered tr := rfl

theorem delivered_wait (k : Nat) (tr : List CaptureEvent) :
    delivered (CaptureEvent.wait k :: tr) = delivered tr := rfl

theorem delivered_push (k : Nat) (i : Insight) (tr : List CaptureEvent) :
    delivered (CaptureEvent.push k i :: tr) = i :: delivered tr := rfl

theorem delivered_sleep (tr : List CaptureEvent) :
    delivered (CaptureEvent.sleep :: tr) = delivered tr := rfl

/-- The collection phase delivers exactly the insights of the outcome,
in order, before whatever the rest of the trace delivers. -/
theorem delivered_collect_append (k : Nat) (w : WorkerOutcome)
    (tr : List CaptureEvent) :
    delivered (collect_events k w ++ tr) = outcome_insights w ++ delivered tr := by
  cases w with
  | success l =>
    induction l with
    | nil => rfl
    | cons i rest ih =>
      simpa [collect_events, outcome_insights, delivered_push] using ih
  | failure => rfl

/-- Every chunk handed to the loop appears as a read event, in order,
whatever the worker outcomes: failures never stop the loop. -/
theorem reads_of_capture_loop (threshold : Nat)
    (outcome : Nat → WorkerOutcome) (chunks : List (List Nat)) :
    ∀ (buf : List Nat) (k : Nat),
      reads_of (capture_loop threshold outcome chunks buf k) = chunks := by
  induction chunks with
  | nil => intro buf k; rfl
  | cons c rest ih =>
    intro buf k
    rw [capture_loop_cons]
    by_cases h : threshold ≤ (buf ++ c).length
    · rw [if_pos h, reads_of_read, reads_of_submit, reads_of_wait,
        reads_of_collect_append, reads_of_sleep, ih]
    · rw [if_neg h, reads_of_read, reads_of_sleep, ih]

/-- The payloads submitted by the loop are exactly the segments the
buffer-level fold emits, in emission order, each once. -/
theorem submit_payloads_capture_loop (threshold : Nat)
    (outcome : Nat → WorkerOutcome) (chunks : List (List Nat)) :
    ∀ (buf : List Nat) (k : Nat),
      submit_payloads (capture_loop threshold outcome chunks buf k) =
        (chunks.foldl (segment_step threshold) (buf, [])).2 := by
  induction chunks with
  | nil => intro buf k; rfl
  | cons c rest ih =>
    intro buf k
    rw [capture_loop_cons, List.foldl_cons, segment_step_eq]
    by_cases h : threshold ≤ (buf ++ c).length
    · rw [if_pos h, if_pos h, submit_payloads_read, submit_payloads_submit,
        submit_payloads_wait, submit_payloads_collect_append,
        submit_payloads_sleep, ih,
        segment_foldl_acc threshold rest [] ([] ++ [buf ++ c])]
      simp
    · rw [if_neg h, if_neg h, submit_payloads_read, submit_payloads_sleep, ih]

/-- Submission positions of the loop starting at `k` are `k, k+1, ...`:
no gap, no repetition. -/
theorem submit_indices_capture_loop (threshold : Nat)
    (outcome : Nat → WorkerOutcome) (chunks : List (List Nat)) :
    ∀ (buf : List Nat) (k : Nat),
      submit_indices (capture_loop threshold outcome chunks buf k) =
        List.range' k
          (submit_payloads (capture_loop threshold outcome chunks buf k)).length := by
  induction chunks with
  | nil => intro buf k; rfl
  | cons c rest ih =>
    intro buf k
    rw [capture_loop_cons]
    by_cases h : threshold ≤ (buf ++ c).length
    · rw [if_pos h, submit_indices_read, submit_indices_submit,
        submit_indices_wait, submit_indices_collect_append,
        submit_indices_sleep, ih, submit_payloads_read,
        submit_payloads_submit, submit_payloads_wait,
        submit_payloads_collect_append, submit_payloads_sleep,
        List.length_cons, List.range'_succ]
    · rw [if_neg h, submit_indices_read, submit_indices_sleep, ih,
        submit_payloads_read, submit_payloads_sleep]

/-- Serialization predicate on traces: every submit event is immediately
followed by the wait on that same submission, so the loop blocks on the
segment's result before doing anything else - in particular before the
next read. -/
def wait_follows_submit : List CaptureEvent → Prop
  | [] => True
  | CaptureEvent.submit k _ :: rest =>
      rest.head? = some (CaptureEvent.wait k) ∧ wait_follows_submit rest
  | _ :: rest => wait_follows_submit rest

theorem wait_follows_submit_read (c : List Nat) (tr : List CaptureEvent) :
    wait_follows_submit (CaptureEvent.read c :: tr) ↔
      wait_follows_submit tr := Iff.rfl

theorem wait_follows_submit_submit (k : Nat) (p : List Nat)
    (tr : List CaptureEvent) :
    wait_follows_submit (CaptureEvent.submit k p :: tr) ↔
      (tr.head? = some (CaptureEvent.wait k) ∧ wait_follows_submit tr) :=
  Iff.rfl

theorem wait_follows_submit_wait (k : Nat) (tr : List CaptureEvent) :
    wait_follows_submit (CaptureEvent.wait k :: tr) ↔
      wait_follows_submit tr := Iff.rfl

theorem wait_follows_submit_push (k : Nat) (i : Insight)
    (tr : List CaptureEvent) :
    wait_follows_submit (CaptureEvent.push k i :: tr) ↔
      wait_follows_submit tr := Iff.rfl

theorem wait_follows_submit_sleep (tr : List CaptureEvent) :
    wait_follows_submit (CaptureEvent.sleep :: tr) ↔
      wait_follows_submit tr := Iff.rfl

/-- The collection phase contains no submit, so it does not affect the
serialization predicate. -/
theorem wait_follows_submit_collect_append (k : Nat) (w : WorkerOutcome)
    (tr : List CaptureEvent) :
    wait_follows_submit (collect_events k w ++ tr) ↔
      wait_follows_submit tr := by
  cases w with
  | success l =>
    induction l with
    | nil => exact Iff.rfl
    | cons i rest ih =>
      simpa [collect_events, wait_follows_submit_push] using ih
  | failure => exact Iff.rfl

/-- A push event for submission `j` can occur only when the await of
submission `j` returned successfully: a raised timeout/broker error
contributes no push at all. -/
theorem push_tag_capture_loop (threshold : Nat)
    (outcome : Nat → WorkerOutcome) (chunks : List (List Nat)) :
    ∀ (buf : List Nat) (k j : Nat),
      outcome j = WorkerOutcome.failure →
      ∀ e ∈ capture_loop threshold outcome chunks buf k,
        push_tag e ≠ some j := by
  induction chunks with
  | nil =>
    intro buf k j hj e he
    exact absurd he (List.not_mem_nil e)
  | cons c rest ih =>
    intro buf k j hj e he
    rw [capture_loop_cons] at he
    by_cases h : threshold ≤ (buf ++ c).length
    · rw [if_pos h] at he
      simp only [List.mem_cons, List.mem_append] at he
      rcases he with rfl | rfl | rfl | he
      · simp [push_tag]
      · simp [push_tag]
      · simp [push_tag]
      · rcases he with he | he
        · cases hw : outcome k with
          | success l =>
            rw [hw] at he
            simp only [collect_events, List.mem_map] at he
            obtain ⟨i, _, rfl⟩ := he
            simp only [push_tag, ne_eq, Option.some.injEq]
            intro hkj
            rw [hkj, hj] at hw
            exact WorkerOutcome.noConfusion hw
          | failure =>
            rw [hw] at he
            exact absurd he (List.not_mem_nil e)
        · rcases he with rfl | he
          · simp [push_tag]
          · exact ih [] (k + 1) j hj e he
    · rw [if_neg h] at he
      simp only [List.mem_cons] at he
      rcases he with rfl | rfl | he
      · simp [push_tag]
      · simp [push_tag]
      · exact ih (buf ++ c) k j hj e he

/-- Insights delivered by the loop starting at submission index `k`,
expressed per successful submission. -/
def seg_flatten (outcome : Nat → WorkerOutcome) (k : Nat) : Nat → List Insight
  | 0 => []
  | m + 1 => outcome_insights (outcome k) ++ seg_flatten outcome (k + 1) m

/-- What the loop pushes on `insights_queue` is, per submission in
order, exactly the worker's insight list (nothing for failures). -/
theorem delivered_capture_loop (threshold : Nat)
    (outcome : Nat → WorkerOutcome) (chunks : List (List Nat)) :
    ∀ (buf : List Nat) (k : Nat),
      delivered (capture_loop threshold outcome chunks buf k) =
        seg_flatten outcome k
          (submit_payloads (capture_loop threshold outcome chunks buf k)).length := by
  induction chunks with
  | nil => intro buf k; rfl
  | cons c rest ih =>
    intro buf k
    rw [capture_loop_cons]
    by_cases h : threshold ≤ (buf ++ c).length
    · rw [if_pos h, delivered_read, delivered_submit, delivered_wait,
        delivered_collect_append, delivered_sleep, ih,
        submit_payloads_read, submit_payloads_submit, submit_payloads_wait,
        submit_payloads_collect_append, submit_payloads_sleep,
        List.length_cons]
      rfl
    · rw [if_neg h, delivered_read, delivered_sleep, ih,
        submit_payloads_read, submit_payloads_sleep]

/-- Closed form of `seg_flatten` over the submission indices. -/
theorem seg_flatten_eq_range (outcome : Nat → WorkerOutcome) :
    ∀ (m k : Nat), seg_flatten outcome k m =
      ((List.range' k m).map
        (fun j => outcome_insights (outcome j))).flatten := by
  intro m
  induction m with
  | zero => intro k; rfl
  | succ m ih =>
    intro k
    rw [List.range'_succ, List.map_cons, List.flatten_cons, seg_flatten,
      ih (k + 1)]

/-! ## Claim theorems on the capture trace -/

/-- C2 (counterexample): on a concrete two-segment stream (threshold 2,
two 2-byte reads), the loop's own trace places the wait on segment 0
(event index 2) strictly between the submission of segment 0 (event
index 1) and the read of the next chunk (event index 4): the bounded
wait for `celery_result.get` is serialized into the capture loop
(`await asyncio.to_thread(...)` suspends the loop coroutine), refuting
the claim that the loop never waits on a segment's worker between one
submission and the next read. -/
theorem capture_loop_waits_before_next_read :
    capture_loop 2 (fun _ => WorkerOutcome.failure) [[0, 0], [0, 0]] [] 0 =
      [CaptureEvent.read [0, 0], CaptureEvent.submit 0 [0, 0],
       CaptureEvent.wait 0, CaptureEvent.sleep, CaptureEvent.read [0, 0],
       CaptureEvent.submit 1 [0, 0], CaptureEvent.wait 1,
       CaptureEvent.sleep] ∧
    (capture_loop 2 (fun _ => WorkerOutcome.failure)
      [[0, 0], [0, 0]] [] 0).get? 1 = some (CaptureEvent.submit 0 [0, 0]) ∧
    (capture_loop 2 (fun _ => WorkerOutcome.failure)
      [[0, 0], [0, 0]] [] 0).get? 2 = some (CaptureEvent.wait 0) ∧
    (capture_loop 2 (fun _ => WorkerOutcome.failure)
      [[0, 0], [0, 0]] [] 0).get? 4 = some (CaptureEvent.read [0, 0]) :=
  ⟨rfl, rfl, rfl, rfl⟩

/-- C2 (amended): in every trace of the capture loop, each submission is
immediately followed by the in-loop wait on that same submission's
result (bounded at 10 seconds, offloaded to a thread only to spare the
event loop): the wait is serialized into the capture loop, so the loop
does wait on segment n's worker before reading segment n+1's bytes. -/
theorem capture_loop_serializes_wait (threshold : Nat)
    (outcome : Nat → WorkerOutcome) (chunks : List (List Nat)) :
    ∀ (buf : List Nat) (k : Nat),
      wait_follows_submit (capture_loop threshold outcome chunks buf k) := by
  induction chunks with
  | nil => intro buf k; trivial
  | cons c rest ih =>
    intro buf k
    rw [capture_loop_cons]
    by_cases h : threshold ≤ (buf ++ c).length
    · rw [if_pos h, wait_follows_submit_read, wait_follows_submit_submit]
      refine ⟨rfl, ?_⟩
      rw [wait_follows_submit_wait, wait_follows_submit_collect_append,
        wait_follows_submit_sleep]
      exact ih [] (k + 1)
    · rw [if_neg h, wait_follows_submit_read, wait_follows_submit_sleep]
      exact ih (buf ++ c) k

/-- C5: when the await of submission `j` raises (timeout or broker
error), the `except` block only logs: no insight of that segment is
ever pushed on `insights_queue`, and the loop still reads every
remaining chunk - the failure neither propagates nor stops ingestion,
and the segment is never resubmitted (each position is submitted once,
see `submit_indices_capture_loop`). -/
theorem collector_drops_failed_segment (threshold j : Nat)
    (outcome : Nat → WorkerOutcome) (chunks : List (List Nat))
    (hj : outcome j = WorkerOutcome.failure) :
    (∀ e ∈ capture_loop threshold outcome chunks [] 0,
      push_tag e ≠ some j) ∧
    reads_of (capture_loop threshold outcome chunks [] 0) = chunks :=
  ⟨push_tag_capture_loop threshold outcome chunks [] 0 j hj,
   reads_of_capture_loop threshold outcome chunks [] 0⟩

/-- Witness for `collector_drops_failed_segment`: a one-segment stream
whose worker call times out - the segment is submitted, nothing is
pushed, and the read loop still consumes the whole stream. -/
theorem collector_drops_failed_segment_witness :
    (fun _ : Nat => WorkerOutcome.failure) 0 = WorkerOutcome.failure ∧
    ((∀ e ∈ capture_loop 2 (fun _ => WorkerOutcome.failure) [[0, 0]] [] 0,
        push_tag e ≠ some 0) ∧
      reads_of (capture_loop 2 (fun _ => WorkerOutcome.failure)
        [[0, 0]] [] 0) = [[0, 0]]) :=
  ⟨rfl, collector_drops_failed_segment 2 0 (fun _ => WorkerOutcome.failure)
    [[0, 0]] rfl⟩

/-- C6 (counterexample): the payload handed to
`process_audio_chunk.delay` is the raw snapshot bytes and nothing else,
so two different submissions with equal segment bytes are identical: on
a stream cutting two identical 2-byte segments, submission 0 and
submission 1 are the same value - no sequence number is carried by the
submitted segment, refuting the claim that every submitted segment
carries its sequence number. -/
theorem identical_segments_identical_submissions :
    submit_payloads (capture_loop 2 (fun _ => WorkerOutcome.failure)
      [[0, 0], [0, 0]] [] 0) = [[0, 0], [0, 0]] ∧
    (submit_payloads (capture_loop 2 (fun _ => WorkerOutcome.failure)
      [[0, 0], [0, 0]] [] 0)).get? 0 =
      (submit_payloads (capture_loop 2 (fun _ => WorkerOutcome.failure)
        [[0, 0], [0, 0]] [] 0)).get? 1 :=
  ⟨rfl, rfl⟩

/-- C6 (amended): within one session the loop submits exactly the
emitted segments, each exactly once, in emission order - the k-th
submission is the k-th segment and the submission positions are the
gapless, strictly increasing sequence 0, 1, 2, ... - but the submission
payload itself is only the raw bytes: no sequence number accompanies
the segment. -/
theorem segments_submitted_once_in_order (threshold : Nat)
    (outcome : Nat → WorkerOutcome) (chunks : List (List Nat)) :
    submit_payloads (capture_loop threshold outcome chunks [] 0) =
      (process_video_stream threshold chunks).2 ∧
    submit_indices (capture_loop threshold outcome chunks [] 0) =
      List.range (process_video_stream threshold chunks).2.length := by
  refine ⟨submit_payloads_capture_loop threshold outcome chunks [] 0, ?_⟩
  rw [submit_indices_capture_loop threshold outcome chunks [] 0,
    submit_payloads_capture_loop threshold outcome chunks [] 0,
    List.range_eq_range']
  rfl

/-- C7: the insights put on `insights_queue` are, per submission in
submission order, exactly the worker's returned list - the Collector
neither reorders, filters, nor duplicates insights within a result
(failed submissions contribute nothing). -/
theorem collector_preserves_worker_order (threshold : Nat)
    (outcome : Nat → WorkerOutcome) (chunks : List (List Nat)) :
    delivered (capture_loop threshold outcome chunks [] 0) =
      ((List.range
          (submit_payloads (capture_loop threshold outcome chunks [] 0)).length).map
        (fun j => outcome_insights (outcome j))).flatten := by
  rw [delivered_capture_loop threshold outcome chunks [] 0,
    seg_flatten_eq_range outcome _ 0, List.range_eq_range']

/-! ## Fan-out lemmas and theorems -/

theorem run_schedule_nil (s : FanoutState) : run_schedule s [] = s := rfl

theorem run_schedule_cons (s : FanoutState) (j : Nat) (rest : List Nat) :
    run_schedule s (j :: rest) = run_schedule (subscriber_get s j) rest := rfl

/-- A subscriber's get never changes how many subscribers exist. -/
theorem received_length_subscriber_get (s : FanoutState) (j : Nat) :
    (subscriber_get s j).received.length = s.received.length := by
  rcases s with ⟨q, rec⟩
  cases q with
  | nil => rfl
  | cons i0 qrest => simp [subscriber_get, List.length_set]

/-- Setting entry `j` to itself extended by `i0` adds exactly the count
of `i0` to the total of per-subscriber counts. -/
theorem received_count_set (i0 i : Insight) :
    ∀ (l : List (List Insight)) (j : Nat), j < l.length →
      ((l.set j (l.getD j [] ++ [i0])).map (fun r => r.count i)).sum =
        (l.map (fun r => r.count i)).sum + [i0].count i := by
  intro l
  induction l with
  | nil => intro j hj; simp at hj
  | cons r rest ih =>
    intro j hj
    cases j with
    | zero =>
      simp only [List.set_cons_zero, List.getD_cons_zero, List.map_cons,
        List.sum_cons, List.count_append]
      omega
    | succ j =>
      simp only [List.set_cons_succ, List.getD_cons_succ, List.map_cons,
        List.sum_cons]
      rw [ih j (by simpa using hj)]
      omega

/-- One `insights_queue.get()` conserves the total number of copies of
any insight across the queue and all subscribers: the head moves from
the queue to exactly one subscriber and to no one else. -/
theorem insight_count_subscriber_get (s : FanoutState) (j : Nat)
    (hj : j < s.received.length) (i : Insight) :
    insight_count (subscriber_get s j) i = insight_count s i := by
  rcases s with ⟨q, rec⟩
  cases q with
  | nil => rfl
  | cons i0 qrest =>
    simp only [subscriber_get, insight_count]
    rw [received_count_set i0 i rec j hj,
      show i0 :: qrest = [i0] ++ qrest from rfl, List.count_append]
    omega

/-- Conservation along any schedule of subscriber turns. -/
theorem insight_count_run_schedule (sched : List Nat) :
    ∀ (s : FanoutState), (∀ j ∈ sched, j < s.received.length) →
      ∀ i, insight_count (run_schedule s sched) i = insight_count s i := by
  induction sched with
  | nil => intro s _ i; rfl
  | cons j rest ih =>
    intro s hs i
    rw [run_schedule_cons,
      ih (subscriber_get s j) (fun j' hj' => by
        rw [received_length_subscriber_get]
        exact hs j' (List.mem_cons_of_mem j hj')) i,
      insight_count_subscriber_get s j (hs j (List.mem_cons_self j rest)) i]

/-- Concrete Insight used in concrete-state theorems. -/
def sample_insight : Insight :=
  { timestamp := 0, speaker := "Speaker 1",
    action := "Follow up on discussion",
    keywords := ["follow", "discussion"], sentiment := "positive" }

/-- C3 (counterexample): with one insight on `insights_queue` and two
subscribers attached, subscriber 0's `insights_queue.get()` hands the
insight to subscriber 0 alone and leaves the queue empty - subscriber 1
has received nothing and only one copy exists anywhere, so a consuming
subscriber does remove the insight for the other and delivery is not a
broadcast to every attached subscriber. -/
theorem queue_get_removes_for_others :
    subscriber_get { queue := [sample_insight], received := [[], []] } 0 =
      { queue := [], received := [[sample_insight], []] } ∧
    insight_count
      (subscriber_get { queue := [sample_insight], received := [[], []] } 0)
      sample_insight = 1 :=
  ⟨rfl, rfl⟩

/-- C3 (amended): `insights_queue` is a single competing-consumer FIFO,
not a broadcast channel: along any schedule of subscriber turns the
total number of copies of an insight across the queue and all
subscribers is conserved, and each `put` adds exactly one copy - so
each enqueued insight is consumed by at most one subscriber ever (by
whichever subscriber's `get` takes it), and its consumption removes it
for everyone else. -/
theorem insights_consumed_exactly_once (s : FanoutState) (sched : List Nat)
    (i : Insight) (hs : ∀ j ∈ sched, j < s.received.length) :
    insight_count (run_schedule s sched) i = insight_count s i ∧
    insight_count (queue_put s i) i = insight_count s i + 1 := by
  refine ⟨insight_count_run_schedule sched s hs i, ?_⟩
  simp only [queue_put, insight_count, List.count_append]
  have h1 : [i].count i = 1 := by simp
  omega

/-- Witness for `insights_consumed_exactly_once`: one queued insight,
two subscribers, both taking a turn. -/
theorem insights_consumed_exactly_once_witness :
    (∀ j ∈ [0, 1], j <
      (FanoutState.mk [sample_insight] [[], []]).received.length) ∧
    (insight_count
        (run_schedule { queue := [sample_insight], received := [[], []] }
          [0, 1]) sample_insight =
      insight_count
        { queue := [sample_insight], received := [[], []] } sample_insight ∧
      insight_count
        (queue_put { queue := [sample_insight], received := [[], []] }
          sample_insight) sample_insight =
      insight_count
        { queue := [sample_insight], received := [[], []] } sample_insight
        + 1) :=
  ⟨by decide,
   insights_consumed_exactly_once
     { queue := [sample_insight], received := [[], []] } [0, 1]
     sample_insight (by decide)⟩

end VideoAnalysis
